import Mathlib

/-!
# Verification of the datelib date-arithmetic engine

A shallow embedding, in Lean 4, of the core of the `datelib` C++ repository:
the calendar-date model (`Date` / `std::chrono::year_month_day`), the
business-day predicate and roll conventions, the period (tenor) parser, the
period advancers, the day-count conventions, and the holiday calendar.

Conventions of the embedding:
* C++ `int` values are modelled as `Int`; C++ `/` and `%` (truncated
  division) are `Int.tdiv` / `Int.tmod`; where the C++ code only compares a
  remainder with zero, plain divisibility-equivalent forms are used.
* Exceptions become `Except` values, one error constructor per throw site.
* `double` results (year fractions) are modelled as exact rationals: the
  embedded value is the real number the C++ expression rounds.
* `std::chrono::sys_days` is a count of days since 1970-01-01; the
  `year_month_day` conversions implement the proleptic-Gregorian civil
  algorithms specified for `std::chrono` (as in libstdc++).
-/

set_option maxRecDepth 4000

namespace Datelib

/-- A `(year, month, day)` triple: models both the `Date` class of the
repository and `std::chrono::year_month_day` (components widened to `Int`). -/
structure Ymd where
  y : Int
  m : Int
  d : Int
deriving DecidableEq

/-- `Date::isLeapYear` (`Date.cpp`) and `std::chrono::year::is_leap`:
`(year % 4 == 0) && ((year % 100 != 0) || (year % 400 == 0))`.  The zero
tests of C++ truncated remainders are divisibility tests, stated here with
Euclidean remainders, which agree on the zero test. -/
def isLeapYear (year : Int) : Bool :=
  year % 4 == 0 && (year % 100 != 0 || year % 400 == 0)

/-- `Date::daysInMonth` (`Date.cpp`): the 28/29/30/31 table, 0 for a month
outside 1..12.  `std::chrono::year_month_day_last` uses the same table. -/
def daysInMonth (year month : Int) : Int :=
  if month < 1 || 12 < month then 0
  else
    let base : Int :=
      if month == 1 then 31 else if month == 2 then 28
      else if month == 3 then 31 else if month == 4 then 30
      else if month == 5 then 31 else if month == 6 then 30
      else if month == 7 then 31 else if month == 8 then 31
      else if month == 9 then 30 else if month == 10 then 31
      else if month == 11 then 30 else 31
    if month == 2 && isLeapYear year then 29 else base

/-- Validity of a date: `Date::validate` (`Date.cpp`) and
`std::chrono::year_month_day::ok()` agree on this predicate. -/
def Ymd.Ok (x : Ymd) : Prop :=
  1 ≤ x.m ∧ x.m ≤ 12 ∧ 1 ≤ x.d ∧ x.d ≤ daysInMonth x.y x.m

instance (x : Ymd) : Decidable x.Ok := by
  unfold Ymd.Ok; infer_instance

/-- Lexicographic strict order of `std::chrono::year_month_day`
(`operator<=>` compares year, then month, then day); also the defaulted
`operator<=>` of the `Date` class. -/
def Ymd.ltb (a b : Ymd) : Bool :=
  a.y < b.y || (a.y == b.y && (a.m < b.m || (a.m == b.m && a.d < b.d)))

/-- Days since 1970-01-01 of a civil date: the `year_month_day` →
`sys_days` conversion of `std::chrono` (Howard Hinnant's `days_from_civil`
algorithm, as implemented in libstdc++), with C++ truncated division. -/
def daysFromCivil (x : Ymd) : Int :=
  let y := x.y - (if x.m ≤ 2 then 1 else 0)
  let era := (if 0 ≤ y then y else y - 399).tdiv 400
  let yoe := y - era * 400
  let mp := if 2 < x.m then x.m - 3 else x.m + 9
  let doy := (153 * mp + 2).tdiv 5 + x.d - 1
  let doe := yoe * 365 + yoe.tdiv 4 - yoe.tdiv 100 + doy
  era * 146097 + doe - 719468

/-- Civil date of a days-since-epoch count: the `sys_days` →
`year_month_day` conversion of `std::chrono` (Hinnant's `civil_from_days`). -/
def civilFromDays (z0 : Int) : Ymd :=
  let z := z0 + 719468
  let era := (if 0 ≤ z then z else z - 146096).tdiv 146097
  let doe := z - era * 146097
  let yoe := (doe - doe.tdiv 1460 + doe.tdiv 36524 - doe.tdiv 146096).tdiv 365
  let yv := yoe + era * 400
  let doy := doe - (365 * yoe + yoe.tdiv 4 - yoe.tdiv 100)
  let mp := (5 * doy + 2).tdiv 153
  let dv := doy - (153 * mp + 2).tdiv 5 + 1
  let mv := if mp < 10 then mp + 3 else mp - 9
  ⟨yv + (if mv ≤ 2 then 1 else 0), mv, dv⟩

/-- `std::chrono::weekday{sys_days}`: C encoding 0=Sunday..6=Saturday,
computed from the epoch day count (1970-01-01 was a Thursday); libstdc++
computes `z >= -4 ? (z+4) % 7 : (z+5) % 7 + 6` with truncated `%`. -/
def weekdayFromDays (z : Int) : Int :=
  if -4 ≤ z then (z + 4).tmod 7 else (z + 5).tmod 7 + 6

/-- The weekday of a date, as the business-day layer computes it:
convert to `sys_days`, then take `std::chrono::weekday`. -/
def Ymd.weekday (x : Ymd) : Int :=
  weekdayFromDays (daysFromCivil x)

/- ### Small arithmetic bridges for truncated division -/

theorem tmod_seven_lower (a : Int) : -7 < a.tmod 7 := by
  cases a with
  | ofNat n =>
      have h : (0 : Int) ≤ Int.ofNat n := Int.ofNat_nonneg n
      have := Int.tmod_nonneg 7 h
      omega
  | negSucc n =>
      have h : Int.tmod (Int.negSucc n) 7 = -(((n + 1) % 7 : Nat) : Int) := rfl
      have h2 : (n + 1) % 7 < 7 := Nat.mod_lt _ (by omega)
      omega

theorem tmod_seven_upper (a : Int) : a.tmod 7 < 7 :=
  Int.tmod_lt_of_pos a (by omega)

/-- Feeding a truncated remainder mod 7 through the `(h + 6) % 7` remap is the
Euclidean remainder of `t + 6`. -/
theorem tmod_seven_shift (t : Int) : (t.tmod 7 + 6).tmod 7 = (t + 6) % 7 := by
  have hlow := tmod_seven_lower t
  have hup := tmod_seven_upper t
  have hdecomp := Int.tdiv_add_tmod t 7
  have hnn : (0 : Int) ≤ t.tmod 7 + 6 := by omega
  rw [Int.tmod_eq_emod hnn (by omega)]
  omega

/- ### The `Date` class weekday (Zeller's congruence), `Date.cpp` -/

/-- `Date::dayOfWeek` (`Date.cpp`): Zeller's congruence with January and
February counted as months 13 and 14 of the previous year, C++ truncated
`/` and `%` throughout, and the final Saturday-origin → Sunday-origin remap
`(h + 6) % 7`. -/
def dayOfWeek (x : Ymd) : Int :=
  let y := if x.m < 3 then x.y - 1 else x.y
  let m := if x.m < 3 then x.m + 12 else x.m
  let c := y.tdiv 100
  let k := y.tmod 100
  let h := (x.d + (13 * (m + 1)).tdiv 5 + k + k.tdiv 4 + c.tdiv 4 - 2 * c).tmod 7
  (h + 6).tmod 7

/-- The calendar successor of a date ("+1 day" of the spec's periodicity
property): next day in the month, else first day of the next month, else
January 1 of the next year. -/
def nextDate (x : Ymd) : Ymd :=
  if x.d < daysInMonth x.y x.m then ⟨x.y, x.m, x.d + 1⟩
  else if x.m < 12 then ⟨x.y, x.m + 1, 1⟩
  else ⟨x.y + 1, 1, 1⟩

/- ### Holiday rules and the holiday calendar (`HolidayCalendar.cpp`) -/

/-- The exception kinds a holiday rule's `calculateDate` can raise
(`HolidayRule.cpp`): `DateNotInYearException`, `InvalidDateException`,
`OccurrenceNotFoundException`. -/
inductive RuleError where
  | dateNotInYear
  | invalidDate
  | occurrenceNotFound
deriving DecidableEq

/-- A holiday rule, modelled by the behaviour of its virtual
`calculateDate(year)`: either a concrete date for that year or one of the
rule exceptions. -/
def HolidayRuleFn : Type := Int → Except RuleError Ymd

/-- `HolidayCalendar` (`HolidayCalendar.h`): an explicit date set
(`std::set<Date>`, modelled by a list with membership) plus an ordered rule
list (`std::vector<std::unique_ptr<HolidayRule>>`). -/
structure HolidayCalendar where
  explicitHolidays : List Ymd
  rules : List HolidayRuleFn

/-- `HolidayCalendar::addRule`: a null `unique_ptr` (here `none`) is ignored,
otherwise the rule is appended. -/
def HolidayCalendar.addRule (c : HolidayCalendar) (rule : Option HolidayRuleFn) :
    HolidayCalendar :=
  match rule with
  | some r => { c with rules := c.rules ++ [r] }
  | none => c

/-- `HolidayCalendar::isHoliday` (`HolidayCalendar.cpp`): explicit-set
membership first, then each rule's `calculateDate(date.year())` under a
catch-all that skips a failing rule. -/
def HolidayCalendar.isHoliday (c : HolidayCalendar) (date : Ymd) : Bool :=
  c.explicitHolidays.contains date ||
  c.rules.any (fun rule =>
    match rule date.y with
    | .ok ruleDate => ruleDate == date
    | .error _ => false)

/- ### The period (tenor) parser (`period.cpp`) -/

/-- `Period::Unit`. -/
inductive PeriodUnit where
  | days
  | weeks
  | months
  | years
deriving DecidableEq

/-- `Period`: a signed count and a unit. -/
structure Period where
  value : Int
  unit : PeriodUnit
deriving DecidableEq

/-- The `std::invalid_argument` throw sites of `Period::parse` and its
helpers (`period.cpp`), one constructor per message:
empty input, no digits, more than one trailing unit character, `std::stoi`
out of `int` range (caught and rethrown as "Invalid numeric value in period
string"), unknown unit letter. -/
inductive ParseError where
  | emptyInput
  | missingNumericValue
  | missingSingleUnit
  | numericOverflow
  | invalidUnit
deriving DecidableEq

/-- The run of leading decimal digits of a character list (the
`while (numeric_end < length && isdigit(...))` scan). -/
def digitRunLength : List Char → Nat
  | [] => 0
  | c :: rest => if c.isDigit then digitRunLength rest + 1 else 0

/-- `validateAndFindNumericEnd` (`period.cpp`, `string_view` overload):
returns the index one past the digit run together with the sign flag, or the
format error the C++ helper throws. -/
def validateAndFindNumericEnd (s : List Char) :
    Except ParseError (Nat × Bool) :=
  if s.isEmpty then .error .emptyInput
  else
    let has_sign : Bool :=
      match s.head? with
      | some c => c == '+' || c == '-'
      | none => false
    let start := if has_sign then 1 else 0
    let numeric_end := start + digitRunLength (s.drop start)
    if numeric_end == start then .error .missingNumericValue
    else if numeric_end + 1 != s.length then .error .missingSingleUnit
    else .ok (numeric_end, has_sign)

/-- The smallest value of a 32-bit C++ `int` (the platform integer range of
`std::stoi`). -/
def intMin : Int := -2147483648

/-- The largest value of a 32-bit C++ `int`. -/
def intMax : Int := 2147483647

/-- Numeric value of a digit list (what `std::stoi` computes on the already
validated sign-and-digits slice). -/
def digitsVal : List Char → Nat → Nat
  | [], acc => acc
  | c :: rest, acc => digitsVal rest (10 * acc + (c.toNat - '0'.toNat))

/-- `parseNumericValue` (`period.cpp`): `std::stoi` on the first
`numeric_end` characters; an out-of-`int`-range value is caught and
rethrown, which is the overflow error. -/
def parseNumericValue (s : List Char) (numeric_end : Nat) :
    Except ParseError Int :=
  let chars := s.take numeric_end
  let signAndDigits : Int × List Char :=
    match chars with
    | c :: rest =>
        if c == '-' then (-1, rest)
        else if c == '+' then (1, rest) else (1, chars)
    | [] => (1, chars)
  let n : Int := signAndDigits.1 * (digitsVal signAndDigits.2 0 : Int)
  if n < intMin ∨ intMax < n then .error .numericOverflow else .ok n

/-- `parseUnit` (`period.cpp`): uppercase the character at `unit_index` and
map D/W/M/Y; anything else is the invalid-unit error. -/
def parseUnit (s : List Char) (unit_index : Nat) :
    Except ParseError PeriodUnit :=
  match (s.drop unit_index).head? with
  | some c =>
      let u := c.toUpper
      if u == 'D' then .ok .days
      else if u == 'W' then .ok .weeks
      else if u == 'M' then .ok .months
      else if u == 'Y' then .ok .years
      else .error .invalidUnit
  | none => .error .invalidUnit

/-- `Period::parse` (`period.cpp`): validate the shape, parse the numeric
value, parse the unit. -/
def Period.parse (s : List Char) : Except ParseError Period := do
  let fmt ← validateAndFindNumericEnd s
  let value ← parseNumericValue s fmt.1
  let unit ← parseUnit s fmt.1
  pure ⟨value, unit⟩

/- ### Day-count conventions (`DayCountConvention.cpp`) -/

/-- The errors of the day-count layer: `InvalidDateException` for a bad
endpoint, and the `std::invalid_argument` "Start date must not be after end
date" ordering error. -/
inductive DccError where
  | invalidDate
  | startAfterEnd
deriving DecidableEq

/-- `validate_dates` (`DayCountConvention.cpp`): both endpoints must be
valid and `start_date > end_date` is rejected. -/
def validate_dates (start_date end_date : Ymd) : Except DccError Unit :=
  if ¬ start_date.Ok then .error .invalidDate
  else if ¬ end_date.Ok then .error .invalidDate
  else if Ymd.ltb end_date start_date then .error .startAfterEnd
  else .ok ()

/-- `actual_days`: difference of the two `sys_days` conversions. -/
def actual_days (start_date end_date : Ymd) : Int :=
  daysFromCivil end_date - daysFromCivil start_date

/-- `days_in_year`: 366 in a leap year, else 365. -/
def days_in_year (y : Int) : Int :=
  if isLeapYear y then 366 else 365

namespace ActualActual

/-- `ActualActual::dayCount`. -/
def dayCount (start_date end_date : Ymd) : Except DccError Int :=
  match validate_dates start_date end_date with
  | .error er => .error er
  | .ok _ => .ok (actual_days start_date end_date)

/-- `ActualActual::yearFraction`: same-year ratio, or first partial year
(through December 31, inclusive) plus 1.0 per intervening year plus the
last partial year.  The `for` loop over intervening years runs
`max 0 (end_year - start_year - 1)` times, i.e. `Int.toNat` of the span. -/
def yearFraction (start_date end_date : Ymd) : Except DccError ℚ :=
  match validate_dates start_date end_date with
  | .error er => .error er
  | .ok _ =>
  if start_date.y == end_date.y then
    .ok ((actual_days start_date end_date : ℚ) / (days_in_year start_date.y : ℚ))
  else
    let year_end : Ymd := ⟨start_date.y, 12, 31⟩
    let days_in_first_year := actual_days start_date year_end + 1
    let first : ℚ := (days_in_first_year : ℚ) / (days_in_year start_date.y : ℚ)
    let whole : ℚ := ((end_date.y - start_date.y - 1).toNat : ℚ)
    let year_start : Ymd := ⟨end_date.y, 1, 1⟩
    let days_in_last_year := actual_days year_start end_date
    let last : ℚ := (days_in_last_year : ℚ) / (days_in_year end_date.y : ℚ)
    .ok (first + whole + last)

end ActualActual

namespace Actual360

/-- `Actual360::dayCount`. -/
def dayCount (start_date end_date : Ymd) : Except DccError Int :=
  match validate_dates start_date end_date with
  | .error er => .error er
  | .ok _ => .ok (actual_days start_date end_date)

/-- `Actual360::yearFraction`: actual days over 360. -/
def yearFraction (start_date end_date : Ymd) : Except DccError ℚ :=
  match validate_dates start_date end_date with
  | .error er => .error er
  | .ok _ => .ok ((actual_days start_date end_date : ℚ) / 360)

end Actual360

namespace Actual365Fixed

/-- `Actual365Fixed::dayCount`. -/
def dayCount (start_date end_date : Ymd) : Except DccError Int :=
  match validate_dates start_date end_date with
  | .error er => .error er
  | .ok _ => .ok (actual_days start_date end_date)

/-- `Actual365Fixed::yearFraction`: actual days over 365. -/
def yearFraction (start_date end_date : Ymd) : Except DccError ℚ :=
  match validate_dates start_date end_date with
  | .error er => .error er
  | .ok _ => .ok ((actual_days start_date end_date : ℚ) / 365)

end Actual365Fixed

namespace Thirty360

/-- `Thirty360::dayCount` (`DayCountConvention.cpp`): validates (including
the ordering check), then applies the 30/360 US (Bond Basis) clamping with
the saved original `d1`, then `360*(y2-y1) + 30*(m2-m1) + (d2-d1)`. -/
def dayCount (start_date end_date : Ymd) : Except DccError Int :=
  match validate_dates start_date end_date with
  | .error er => .error er
  | .ok _ =>
  let d1 := start_date.d
  let m1 := start_date.m
  let y1 := start_date.y
  let d2 := end_date.d
  let m2 := end_date.m
  let y2 := end_date.y
  let original_d1 := d1
  let d1 := if d1 == 31 then 30 else d1
  let d2 := if d2 == 31 && (original_d1 == 30 || original_d1 == 31) then 30 else d2
  .ok ((y2 - y1) * 360 + (m2 - m1) * 30 + (d2 - d1))

/-- `Thirty360::yearFraction`: the day count over 360 (errors propagate). -/
def yearFraction (start_date end_date : Ymd) : Except DccError ℚ :=
  (dayCount start_date end_date).map (fun days => (days : ℚ) / 360)

end Thirty360

/- ### The business-day layer (`date.h` / the chrono-based translation unit) -/

/-- The exceptions of the business-day layer: `InvalidDateException` /
`std::invalid_argument` on a bad date, and `BusinessDaySearchException`
when the 366-step search ceiling is hit. -/
inductive CalError where
  | invalidDate
  | businessDaySearchExceeded
deriving DecidableEq

/-- `BusinessDayConvention` (`date.h`). -/
inductive BusinessDayConvention where
  | following
  | modifiedFollowing
  | preceding
  | modifiedPreceding
  | unadjusted
deriving DecidableEq

/-- The pure core of `isBusinessDay`: not a weekend weekday and not a
holiday.  The calendar enters only through its `isHoliday` membership test
and is modelled as that predicate; the weekend set is a list of C-encoded
weekdays.  (The validity check of the full `isBusinessDay` is kept in
`isBusinessDay` below; the day-by-day searches apply the predicate to
`sys_days` round-trips, which are always well-formed dates.) -/
def isBusinessDayCore (hol : Ymd → Bool) (wk : List Int) (x : Ymd) : Bool :=
  !(wk.contains x.weekday) && !(hol x)

/-- `isBusinessDay`: fails on an invalid date, otherwise the predicate. -/
def isBusinessDay (x : Ymd) (hol : Ymd → Bool) (wk : List Int) :
    Except CalError Bool :=
  if ¬ x.Ok then .error .invalidDate
  else .ok (isBusinessDayCore hol wk x)

/-- The `while` loop of `moveToNextBusinessDay`: `fuel` is the number of
single-day steps still allowed (the C++ code counts `iterations` up and
throws once `iterations > 366`, so it starts with 366 allowed steps; here
`iterations = 366 - fuel`). -/
def nextBdAux (hol : Ymd → Bool) (wk : List Int) : Int → Nat → Except CalError Ymd
  | z, fuel =>
    if isBusinessDayCore hol wk (civilFromDays z) then .ok (civilFromDays z)
    else
      match fuel with
      | 0 => .error .businessDaySearchExceeded
      | fuel + 1 => nextBdAux hol wk (z + 1) fuel

/-- The `while` loop of `moveToPreviousBusinessDay` (steps one day back). -/
def prevBdAux (hol : Ymd → Bool) (wk : List Int) : Int → Nat → Except CalError Ymd
  | z, fuel =>
    if isBusinessDayCore hol wk (civilFromDays z) then .ok (civilFromDays z)
    else
      match fuel with
      | 0 => .error .businessDaySearchExceeded
      | fuel + 1 => prevBdAux hol wk (z - 1) fuel

/-- `moveToNextBusinessDay`: scan forward from the date, at most 366 steps. -/
def moveToNextBusinessDay (start : Ymd) (hol : Ymd → Bool) (wk : List Int) :
    Except CalError Ymd :=
  nextBdAux hol wk (daysFromCivil start) 366

/-- `moveToPreviousBusinessDay`: scan backward, at most 366 steps. -/
def moveToPreviousBusinessDay (start : Ymd) (hol : Ymd → Bool) (wk : List Int) :
    Except CalError Ymd :=
  prevBdAux hol wk (daysFromCivil start) 366

/-- The `while (days_added < target)` loop of `addBusinessDays`: step one
calendar day in `direction`, count the business days landed on, stop when
`target` of them have been counted; `fuel` is the number of steps still
allowed before the 366-iteration ceiling throws. -/
def addBdAux (hol : Ymd → Bool) (wk : List Int) (direction : Int) (target : Nat) :
    Int → Nat → Nat → Except CalError Ymd
  | z, days_added, fuel =>
    if days_added < target then
      match fuel with
      | 0 => .error .businessDaySearchExceeded
      | fuel + 1 =>
          let z' := z + direction
          let days_added' :=
            if isBusinessDayCore hol wk (civilFromDays z') then days_added + 1
            else days_added
          addBdAux hol wk direction target z' days_added' fuel
    else .ok (civilFromDays z)

/-- `addBusinessDays`: zero is a no-op returning the start date unchanged;
otherwise walk `|num_business_days|` business days in the sign's direction. -/
def addBusinessDays (start : Ymd) (num_business_days : Int)
    (hol : Ymd → Bool) (wk : List Int) : Except CalError Ymd :=
  if num_business_days == 0 then .ok start
  else
    addBdAux hol wk (if 0 < num_business_days then 1 else -1)
      num_business_days.natAbs (daysFromCivil start) 0 366

/-- `adjust`: validate, return a business day unchanged, otherwise apply the
convention's scans (ModifiedFollowing and ModifiedPreceding restart the
opposite scan from the **original** date when the month changed). -/
def adjust (date : Ymd) (convention : BusinessDayConvention)
    (hol : Ymd → Bool) (wk : List Int) : Except CalError Ymd :=
  if ¬ date.Ok then .error .invalidDate
  else if isBusinessDayCore hol wk date then .ok date
  else
    match convention with
    | .following => moveToNextBusinessDay date hol wk
    | .modifiedFollowing =>
        (moveToNextBusinessDay date hol wk).bind (fun adjusted =>
          if adjusted.m ≠ date.m then moveToPreviousBusinessDay date hol wk
          else .ok adjusted)
    | .preceding => moveToPreviousBusinessDay date hol wk
    | .modifiedPreceding =>
        (moveToPreviousBusinessDay date hol wk).bind (fun adjusted =>
          if adjusted.m ≠ date.m then moveToNextBusinessDay date hol wk
          else .ok adjusted)
    | .unadjusted => .ok date

/-- The first normalization loop of the Months advancer:
`while (total_months > 12) { total_months -= 12; year_offset++; }`. -/
def monthsDown (total_months year_offset : Int) : Int × Int :=
  if 12 < total_months then monthsDown (total_months - 12) (year_offset + 1)
  else (total_months, year_offset)
termination_by (total_months - 12).toNat
decreasing_by omega

/-- The second normalization loop:
`while (total_months < 1) { total_months += 12; year_offset--; }`. -/
def monthsUp (total_months year_offset : Int) : Int × Int :=
  if total_months < 1 then monthsUp (total_months + 12) (year_offset - 1)
  else (total_months, year_offset)
termination_by (1 - total_months).toNat
decreasing_by omega

/-- `advance` (Period overload): validate, then dispatch on the unit.
Days delegates to `addBusinessDays` and returns directly; Weeks shifts by
`7 * value` calendar days; Months normalizes the month with the two ±12
loops, keeps the day, clamps an invalid day to the month's last day; Years
shifts the year and clamps the same way.  All but Days finish with
`adjust`. -/
def advance (date : Ymd) (period : Period) (convention : BusinessDayConvention)
    (hol : Ymd → Bool) (wk : List Int) : Except CalError Ymd :=
  if ¬ date.Ok then .error .invalidDate
  else
    match period.unit with
    | .days => addBusinessDays date period.value hol wk
    | .weeks =>
        let result := civilFromDays (daysFromCivil date + period.value * 7)
        adjust result convention hol wk
    | .months =>
        let td := monthsDown (date.m + period.value) 0
        let tu := monthsUp td.1 td.2
        let new_year := date.y + tu.2
        let new_month := tu.1
        let candidate : Ymd := ⟨new_year, new_month, date.d⟩
        let result :=
          if candidate.Ok then candidate
          else ⟨new_year, new_month, daysInMonth new_year new_month⟩
        adjust result convention hol wk
    | .years =>
        let new_year := date.y + period.value
        let candidate : Ymd := ⟨new_year, date.m, date.d⟩
        let result :=
          if candidate.Ok then candidate
          else ⟨new_year, date.m, daysInMonth new_year date.m⟩
        adjust result convention hol wk

/- ### Shared helper lemmas -/

theorem validate_dates_err_of_gt (s e : Ymd) (hs : s.Ok) (he : e.Ok)
    (hlt : Ymd.ltb e s = true) :
    validate_dates s e = .error .startAfterEnd := by
  unfold validate_dates
  rw [if_neg (not_not_intro hs), if_neg (not_not_intro he), if_pos hlt]

theorem validate_dates_ok_of_le (s e : Ymd) (hs : s.Ok) (he : e.Ok)
    (hle : Ymd.ltb e s = false) :
    validate_dates s e = .ok () := by
  unfold validate_dates
  rw [if_neg (not_not_intro hs), if_neg (not_not_intro he), if_neg (by simp [hle])]

/- ### Claim theorems -/

/-- C10: `HolidayCalendar::addRule` with a null rule pointer leaves the
calendar completely unchanged: no rule is added, the explicit holiday set
is untouched, and no error is raised (the operation is total). -/
theorem c10_addRule_null_noop (c : HolidayCalendar) :
    c.addRule none = c ∧
    (c.addRule none).explicitHolidays = c.explicitHolidays ∧
    (c.addRule none).rules = c.rules :=
  ⟨rfl, rfl, rfl⟩

/-- C2: a tenor string made of an optional sign, a digit run whose value
does not fit a 32-bit `int`, and a valid unit letter fails with the
numeric-overflow error (the catch around `std::stoi`, message "Invalid
numeric value in period string"), and that error is distinct from every
error raised for malformed strings (empty input, missing digits, misplaced
unit characters, unknown unit). -/
theorem c2_parse_overflow_distinct :
    Period.parse ("999999999999999999999D".toList) = .error .numericOverflow ∧
    Period.parse ("-999999999999999999999D".toList) = .error .numericOverflow ∧
    Period.parse ("2147483648D".toList) = .error .numericOverflow ∧
    Period.parse ("2147483647D".toList) = .ok ⟨2147483647, .days⟩ ∧
    Period.parse ("".toList) = .error .emptyInput ∧
    Period.parse ("D".toList) = .error .missingNumericValue ∧
    Period.parse ("10".toList) = .error .missingSingleUnit ∧
    Period.parse ("5.5D".toList) = .error .missingSingleUnit ∧
    Period.parse ("5X".toList) = .error .invalidUnit ∧
    ParseError.numericOverflow ≠ ParseError.emptyInput ∧
    ParseError.numericOverflow ≠ ParseError.missingNumericValue ∧
    ParseError.numericOverflow ≠ ParseError.missingSingleUnit ∧
    ParseError.numericOverflow ≠ ParseError.invalidUnit :=
  ⟨rfl, rfl, rfl, rfl, rfl, rfl, rfl, rfl, rfl,
   by decide, by decide, by decide, by decide⟩

/-- C8: `isHoliday` is true exactly when the date is in the explicit set or
some rule's `calculateDate` succeeds for the date's year with that date;
and a rule that fails for that year is skipped: prepending it changes
nothing, and `isHoliday` itself stays a total boolean query. -/
theorem c8_isHoliday_iff_skips_failing_rules (c : HolidayCalendar) (date : Ymd)
    (_hok : date.Ok) :
    (c.isHoliday date = true ↔
      date ∈ c.explicitHolidays ∨ ∃ rule ∈ c.rules, rule date.y = .ok date) ∧
    (∀ (r : HolidayRuleFn) (e : RuleError), r date.y = .error e →
      HolidayCalendar.isHoliday ⟨c.explicitHolidays, r :: c.rules⟩ date =
        c.isHoliday date) := by
  constructor
  · simp only [HolidayCalendar.isHoliday, Bool.or_eq_true, List.any_eq_true,
      List.elem_iff]
    apply or_congr_right
    apply exists_congr
    intro rule
    apply and_congr_right
    intro _
    cases hr : rule date.y with
    | ok ruleDate => simp [hr, beq_iff_eq]
    | error er => simp [hr]
  · intro r e hr
    simp [HolidayCalendar.isHoliday, List.any_cons, hr]

/-- C8 witness: a concrete calendar with one explicit holiday; the
characterization holds there, and prepending an always-failing rule leaves
the query unchanged. -/
theorem c8_witness :
    ((HolidayCalendar.mk [⟨2024, 1, 1⟩] []).isHoliday ⟨2024, 1, 1⟩ = true ↔
      (⟨2024, 1, 1⟩ : Ymd) ∈ (HolidayCalendar.mk [⟨2024, 1, 1⟩] []).explicitHolidays ∨
      ∃ rule ∈ (HolidayCalendar.mk [⟨2024, 1, 1⟩] []).rules,
        rule (Ymd.mk 2024 1 1).y = .ok ⟨2024, 1, 1⟩) ∧
    HolidayCalendar.isHoliday
        ⟨[⟨2024, 1, 1⟩], (fun _ => .error .occurrenceNotFound) :: []⟩ ⟨2024, 1, 1⟩ =
      (HolidayCalendar.mk [⟨2024, 1, 1⟩] []).isHoliday ⟨2024, 1, 1⟩ :=
  ⟨(c8_isHoliday_iff_skips_failing_rules (HolidayCalendar.mk [⟨2024, 1, 1⟩] [])
      ⟨2024, 1, 1⟩ (by decide)).1,
   (c8_isHoliday_iff_skips_failing_rules (HolidayCalendar.mk [⟨2024, 1, 1⟩] [])
      ⟨2024, 1, 1⟩ (by decide)).2
     (fun _ => .error .occurrenceNotFound) .occurrenceNotFound rfl⟩

/-- C1 counterexample: `Thirty360::dayCount` and `Thirty360::yearFraction`
do NOT accept a reversed pair: on start 2024-07-01 > end 2024-01-01 both
fail with the ordering error raised by `validate_dates`, instead of
returning a result as the claim states. -/
theorem c1_counterexample :
    Thirty360.dayCount ⟨2024, 7, 1⟩ ⟨2024, 1, 1⟩ = .error .startAfterEnd ∧
    Thirty360.yearFraction ⟨2024, 7, 1⟩ ⟨2024, 1, 1⟩ = .error .startAfterEnd :=
  ⟨rfl, rfl⟩

/-- C1 (amended): all four day-count conventions, Thirty360 included, share
`validate_dates` and fail with the ordering error whenever the (valid)
start date is after the (valid) end date, in both `dayCount` and
`yearFraction`. -/
theorem c1_all_conventions_order_error (s e : Ymd) (hs : s.Ok) (he : e.Ok)
    (hlt : Ymd.ltb e s = true) :
    ActualActual.dayCount s e = .error .startAfterEnd ∧
    ActualActual.yearFraction s e = .error .startAfterEnd ∧
    Actual360.dayCount s e = .error .startAfterEnd ∧
    Actual360.yearFraction s e = .error .startAfterEnd ∧
    Actual365Fixed.dayCount s e = .error .startAfterEnd ∧
    Actual365Fixed.yearFraction s e = .error .startAfterEnd ∧
    Thirty360.dayCount s e = .error .startAfterEnd ∧
    Thirty360.yearFraction s e = .error .startAfterEnd := by
  have hv := validate_dates_err_of_gt s e hs he hlt
  refine ⟨?_, ?_, ?_, ?_, ?_, ?_, ?_, ?_⟩ <;>
    simp [ActualActual.dayCount, ActualActual.yearFraction,
      Actual360.dayCount, Actual360.yearFraction,
      Actual365Fixed.dayCount, Actual365Fixed.yearFraction,
      Thirty360.dayCount, Thirty360.yearFraction, Except.map, hv]

/-- C1 witness: the amended theorem applied to the concrete reversed pair
2024-07-01 / 2024-01-01. -/
theorem c1_witness :
    ActualActual.dayCount ⟨2024, 7, 1⟩ ⟨2024, 1, 1⟩ = .error .startAfterEnd ∧
    ActualActual.yearFraction ⟨2024, 7, 1⟩ ⟨2024, 1, 1⟩ = .error .startAfterEnd ∧
    Actual360.dayCount ⟨2024, 7, 1⟩ ⟨2024, 1, 1⟩ = .error .startAfterEnd ∧
    Actual360.yearFraction ⟨2024, 7, 1⟩ ⟨2024, 1, 1⟩ = .error .startAfterEnd ∧
    Actual365Fixed.dayCount ⟨2024, 7, 1⟩ ⟨2024, 1, 1⟩ = .error .startAfterEnd ∧
    Actual365Fixed.yearFraction ⟨2024, 7, 1⟩ ⟨2024, 1, 1⟩ = .error .startAfterEnd ∧
    Thirty360.dayCount ⟨2024, 7, 1⟩ ⟨2024, 1, 1⟩ = .error .startAfterEnd ∧
    Thirty360.yearFraction ⟨2024, 7, 1⟩ ⟨2024, 1, 1⟩ = .error .startAfterEnd :=
  c1_all_conventions_order_error ⟨2024, 7, 1⟩ ⟨2024, 1, 1⟩
    (by decide) (by decide) (by decide)

/-- The 30/360 US (Bond Basis) day count in the spec's words: clamp `d1`
from 31 to 30; clamp `d2` from 31 to 30 when the original `d1` was 30
or 31; then `360*(y2-y1) + 30*(m2-m1) + (d2-d1)`. -/
def thirty360SpecCount (s e : Ymd) : Int :=
  let d1 := if s.d = 31 then 30 else s.d
  let d2 := if e.d = 31 ∧ (s.d = 30 ∨ s.d = 31) then 30 else e.d
  360 * (e.y - s.y) + 30 * (e.m - s.m) + (d2 - d1)

/-- C9: for valid ordered endpoints, `Thirty360::dayCount` computes exactly
the clamped 30/360 formula, and `Thirty360::yearFraction` is that day count
divided by 360. -/
theorem c9_thirty360_formula (s e : Ymd) (hs : s.Ok) (he : e.Ok)
    (hle : Ymd.ltb e s = false) :
    Thirty360.dayCount s e = .ok (thirty360SpecCount s e) ∧
    Thirty360.yearFraction s e = .ok ((thirty360SpecCount s e : ℚ) / 360) := by
  have hv := validate_dates_ok_of_le s e hs he hle
  have hdc : Thirty360.dayCount s e = .ok (thirty360SpecCount s e) := by
    simp only [Thirty360.dayCount, hv, thirty360SpecCount]
    congr 1
    simp only [beq_iff_eq, Bool.and_eq_true, Bool.or_eq_true, decide_eq_true_eq]
    by_cases h1 : s.d = 31 <;> by_cases h2 : e.d = 31 <;>
      by_cases h3 : s.d = 30 <;> simp [h1, h2, h3] <;> ring
  exact ⟨hdc, by simp [Thirty360.yearFraction, hdc, Except.map]⟩

/-- C9 witness: 2024-01-31 → 2024-03-31 gives a day count of 60 and a year
fraction of 60/360. -/
theorem c9_witness :
    Thirty360.dayCount ⟨2024, 1, 31⟩ ⟨2024, 3, 31⟩ =
      .ok (thirty360SpecCount ⟨2024, 1, 31⟩ ⟨2024, 3, 31⟩) ∧
    Thirty360.yearFraction ⟨2024, 1, 31⟩ ⟨2024, 3, 31⟩ =
      .ok ((thirty360SpecCount ⟨2024, 1, 31⟩ ⟨2024, 3, 31⟩ : ℚ) / 360) :=
  c9_thirty360_formula ⟨2024, 1, 31⟩ ⟨2024, 3, 31⟩ (by decide) (by decide) (by decide)

theorem tmod_seven_nonpos (a : Int) (h : a ≤ 0) : a.tmod 7 ≤ 0 := by
  cases a with
  | ofNat n =>
      have h0 : (0 : Int) ≤ Int.ofNat n := Int.ofNat_nonneg n
      have hz : Int.ofNat n = 0 := le_antisymm h h0
      rw [hz]
      simp
  | negSucc n =>
      have heq : Int.tmod (Int.negSucc n) 7 = -(((n + 1) % 7 : Nat) : Int) := rfl
      omega

/-- The chrono weekday encoding is always one of 0..6. -/
theorem weekday_range (x : Ymd) : 0 ≤ x.weekday ∧ x.weekday < 7 := by
  unfold Ymd.weekday weekdayFromDays
  set z := daysFromCivil x with hz
  split
  · exact ⟨Int.tmod_nonneg 7 (by omega), tmod_seven_upper _⟩
  · rename_i h
    have h1 := tmod_seven_lower (z + 5)
    have h2 : (z + 5).tmod 7 ≤ 0 := tmod_seven_nonpos (z + 5) (by omega)
    omega

/-- With all seven weekdays declared weekend, no date is a business day,
whatever the holiday calendar. -/
theorem allweek_not_business (hol : Ymd → Bool) (x : Ymd) :
    isBusinessDayCore hol [0, 1, 2, 3, 4, 5, 6] x = false := by
  obtain ⟨h1, h2⟩ := weekday_range x
  have hc : List.contains [0, 1, 2, 3, 4, 5, 6] x.weekday = true := by
    interval_cases h3 : x.weekday <;> rfl
  show (!(List.contains [0, 1, 2, 3, 4, 5, 6] x.weekday) && !(hol x)) = false
  rw [hc]
  rfl

theorem nextBdAux_error (hol : Ymd → Bool) (wk : List Int) :
    ∀ (fuel : Nat) (z : Int),
      (∀ w : Int, 0 ≤ w → w ≤ (fuel : Int) →
        isBusinessDayCore hol wk (civilFromDays (z + w)) = false) →
      nextBdAux hol wk z fuel = .error .businessDaySearchExceeded := by
  intro fuel
  induction fuel with
  | zero =>
      intro z h
      have h0 := h 0 le_rfl (by omega)
      rw [Int.add_zero] at h0
      simp [nextBdAux, h0]
  | succ n ih =>
      intro z h
      have h0 := h 0 le_rfl (by push_cast; omega)
      rw [Int.add_zero] at h0
      rw [nextBdAux]
      simp only [h0, Bool.false_eq_true, if_false]
      apply ih
      intro w hw1 hw2
      have := h (w + 1) (by omega) (by push_cast; omega)
      rwa [show z + (w + 1) = z + 1 + w by ring] at this

theorem prevBdAux_error (hol : Ymd → Bool) (wk : List Int) :
    ∀ (fuel : Nat) (z : Int),
      (∀ w : Int, 0 ≤ w → w ≤ (fuel : Int) →
        isBusinessDayCore hol wk (civilFromDays (z - w)) = false) →
      prevBdAux hol wk z fuel = .error .businessDaySearchExceeded := by
  intro fuel
  induction fuel with
  | zero =>
      intro z h
      have h0 := h 0 le_rfl (by omega)
      rw [Int.sub_zero] at h0
      simp [prevBdAux, h0]
  | succ n ih =>
      intro z h
      have h0 := h 0 le_rfl (by push_cast; omega)
      rw [Int.sub_zero] at h0
      rw [prevBdAux]
      simp only [h0, Bool.false_eq_true, if_false]
      apply ih
      intro w hw1 hw2
      have := h (w + 1) (by omega) (by push_cast; omega)
      rwa [show z - (w + 1) = z - 1 - w by ring] at this

theorem addBdAux_error (hol : Ymd → Bool) (wk : List Int) (dir : Int) (target : Nat) :
    ∀ (fuel : Nat) (z : Int) (added : Nat),
      added < target →
      (∀ w : Int, 0 ≤ w → w ≤ (fuel : Int) →
        isBusinessDayCore hol wk (civilFromDays (z + dir * w)) = false) →
      addBdAux hol wk dir target z added fuel = .error .businessDaySearchExceeded := by
  intro fuel
  induction fuel with
  | zero =>
      intro z added hlt h
      simp [addBdAux, hlt]
  | succ n ih =>
      intro z added hlt h
      have h1 := h 1 (by omega) (by push_cast; omega)
      rw [Int.mul_one] at h1
      rw [addBdAux]
      simp only [hlt, if_true, h1, Bool.false_eq_true, if_false]
      apply ih (z + dir) added hlt
      intro w hw1 hw2
      have := h (w + 1) (by omega) (by push_cast; omega)
      rwa [show z + dir * (w + 1) = z + dir + dir * w by ring] at this

/-- C3: when no business day is reachable anywhere within 366 days of the
start (for instance because every day of the surrounding year is a holiday,
or every weekday is a weekend day), the bounded directional scans, the
`adjust` conventions built on them, and the business-day addition behind
`advance` with a Days period all stop with the
`BusinessDaySearchExceeded` error instead of looping forever. -/
theorem c3_search_bounded (x : Ymd) (hol : Ymd → Bool) (wk : List Int)
    (v : Int) (conv : BusinessDayConvention)
    (hx : x.Ok) (hv : v ≠ 0)
    (hnbx : isBusinessDayCore hol wk x = false)
    (hnb : ∀ z : Int, (z - daysFromCivil x).natAbs ≤ 366 →
      isBusinessDayCore hol wk (civilFromDays z) = false) :
    moveToNextBusinessDay x hol wk = .error .businessDaySearchExceeded ∧
    moveToPreviousBusinessDay x hol wk = .error .businessDaySearchExceeded ∧
    adjust x .following hol wk = .error .businessDaySearchExceeded ∧
    adjust x .preceding hol wk = .error .businessDaySearchExceeded ∧
    advance x ⟨v, .days⟩ conv hol wk = .error .businessDaySearchExceeded := by
  have hnext : moveToNextBusinessDay x hol wk = .error .businessDaySearchExceeded := by
    apply nextBdAux_error
    intro w hw1 hw2
    exact hnb _ (by omega)
  have hprev : moveToPreviousBusinessDay x hol wk = .error .businessDaySearchExceeded := by
    apply prevBdAux_error
    intro w hw1 hw2
    exact hnb _ (by omega)
  refine ⟨hnext, hprev, ?_, ?_, ?_⟩
  · rw [adjust, if_neg (not_not_intro hx)]
    simp only [hnbx, Bool.false_eq_true, if_false]
    exact hnext
  · rw [adjust, if_neg (not_not_intro hx)]
    simp only [hnbx, Bool.false_eq_true, if_false]
    exact hprev
  · rw [advance, if_neg (not_not_intro hx)]
    show addBusinessDays x v hol wk = _
    rw [addBusinessDays, if_neg (by simpa using hv)]
    apply addBdAux_error
    · omega
    · intro w hw1 hw2
      apply hnb
      have : ((if 0 < v then 1 else -1) * w).natAbs = w.natAbs := by
        split <;> simp [Int.natAbs_mul]
      omega

/-- C3 witness: with the empty holiday calendar but all seven weekdays
marked weekend, the searches from 2024-01-01 fail with the bounded-search
error. -/
theorem c3_witness :
    moveToNextBusinessDay ⟨2024, 1, 1⟩ (fun _ => false) [0, 1, 2, 3, 4, 5, 6] =
      .error .businessDaySearchExceeded ∧
    moveToPreviousBusinessDay ⟨2024, 1, 1⟩ (fun _ => false) [0, 1, 2, 3, 4, 5, 6] =
      .error .businessDaySearchExceeded ∧
    adjust ⟨2024, 1, 1⟩ .following (fun _ => false) [0, 1, 2, 3, 4, 5, 6] =
      .error .businessDaySearchExceeded ∧
    adjust ⟨2024, 1, 1⟩ .preceding (fun _ => false) [0, 1, 2, 3, 4, 5, 6] =
      .error .businessDaySearchExceeded ∧
    advance ⟨2024, 1, 1⟩ ⟨1, .days⟩ .following (fun _ => false) [0, 1, 2, 3, 4, 5, 6] =
      .error .businessDaySearchExceeded :=
  c3_search_bounded ⟨2024, 1, 1⟩ (fun _ => false) [0, 1, 2, 3, 4, 5, 6] 1 .following
    (by decide) (by decide)
    (allweek_not_business _ _)
    (fun z _ => allweek_not_business _ _)

/-- C5: on a valid non-business-day date, ModifiedFollowing first runs the
forward scan; a result in the same month is returned, and a result in a
different month is discarded for the backward scan from the original date.
Concretely, Saturday 2024-06-29 with the empty calendar and the default
Saturday/Sunday weekend adjusts to Friday 2024-06-28 (the forward scan
would land on Monday 2024-07-01, in July). -/
theorem c5_modified_following (x : Ymd) (hol : Ymd → Bool) (wk : List Int)
    (hok : x.Ok) (hnb : isBusinessDayCore hol wk x = false) :
    (∀ a : Ymd, moveToNextBusinessDay x hol wk = .ok a →
      ((a.m = x.m → adjust x .modifiedFollowing hol wk = .ok a) ∧
       (a.m ≠ x.m →
         adjust x .modifiedFollowing hol wk = moveToPreviousBusinessDay x hol wk))) ∧
    adjust ⟨2024, 6, 29⟩ .modifiedFollowing (fun _ => false) [6, 0] = .ok ⟨2024, 6, 28⟩ := by
  constructor
  · intro a ha
    rw [adjust, if_neg (not_not_intro hok)]
    simp only [hnb, Bool.false_eq_true, if_false]
    rw [ha]
    constructor
    · intro hm
      simp [Except.bind, hm]
    · intro hm
      simp [Except.bind, hm]
  · rfl

/-- C5 witness: the theorem applied at Saturday 2024-06-29 with the empty
calendar; the forward scan lands on 2024-07-01 (July ≠ June), so the
adjustment equals the backward scan's result. -/
theorem c5_witness :
    adjust ⟨2024, 6, 29⟩ .modifiedFollowing (fun _ => false) [6, 0] =
      moveToPreviousBusinessDay ⟨2024, 6, 29⟩ (fun _ => false) [6, 0] :=
  ((c5_modified_following ⟨2024, 6, 29⟩ (fun _ => false) [6, 0]
      (by decide) rfl).1 ⟨2024, 7, 1⟩ rfl).2 (by decide)

/-- Spec-side description of the Days walk: among the first `k` single-day
steps from `x` in direction `dir`, the number of steps landing on a
business day. -/
def specBusinessDaysOnPath (x : Ymd) (dir : Int) (hol : Ymd → Bool)
    (wk : List Int) (k : Nat) : Nat :=
  ((Finset.Icc 1 k).filter
    (fun j : Nat => isBusinessDayCore hol wk
      (civilFromDays (daysFromCivil x + dir * (j : Int))) = true)).card

theorem specBusinessDaysOnPath_zero (x : Ymd) (dir : Int) (hol : Ymd → Bool)
    (wk : List Int) : specBusinessDaysOnPath x dir hol wk 0 = 0 := by
  simp [specBusinessDaysOnPath]

theorem specBusinessDaysOnPath_succ (x : Ymd) (dir : Int) (hol : Ymd → Bool)
    (wk : List Int) (s : Nat) :
    specBusinessDaysOnPath x dir hol wk (s + 1) =
      specBusinessDaysOnPath x dir hol wk s +
        (if isBusinessDayCore hol wk
            (civilFromDays (daysFromCivil x + dir * ((s : Int) + 1))) = true
         then 1 else 0) := by
  have hcast : ((s + 1 : Nat) : Int) = (s : Int) + 1 := by push_cast; ring
  unfold specBusinessDaysOnPath
  rw [← Nat.Icc_insert_succ_right (show 1 ≤ s + 1 by omega)]
  simp only [Finset.filter_insert, hcast]
  have hnot : (s + 1) ∉ Finset.Icc 1 s := by
    simp [Finset.mem_Icc]
  by_cases hb : isBusinessDayCore hol wk
      (civilFromDays (daysFromCivil x + dir * ((s : Int) + 1))) = true
  · rw [if_pos hb, if_pos hb,
      Finset.card_insert_of_not_mem (fun hmem => hnot (Finset.mem_of_mem_filter _ hmem))]
  · rw [if_neg hb, if_neg hb]
    omega

theorem addBdAux_ok_spec (hol : Ymd → Bool) (wk : List Int) (dir : Int)
    (target : Nat) (x : Ymd) :
    ∀ (fuel s added : Nat) (r : Ymd),
      added = specBusinessDaysOnPath x dir hol wk s →
      added ≤ target →
      addBdAux hol wk dir target (daysFromCivil x + dir * (s : Int)) added fuel = .ok r →
      ∃ k : Nat, s ≤ k ∧ r = civilFromDays (daysFromCivil x + dir * (k : Int)) ∧
        specBusinessDaysOnPath x dir hol wk k = target ∧
        (¬ added < target → k = s) ∧
        (added < target → s < k ∧
          isBusinessDayCore hol wk
            (civilFromDays (daysFromCivil x + dir * (k : Int))) = true) := by
  intro fuel
  induction fuel with
  | zero =>
      intro s added r hcount hle hrun
      rw [addBdAux] at hrun
      by_cases hlt : added < target
      · rw [if_pos hlt] at hrun
        exact absurd hrun (by simp)
      · rw [if_neg hlt] at hrun
        refine ⟨s, le_rfl, (Except.ok.injEq _ _).mp hrun |>.symm, by omega,
          fun _ => rfl, fun h => absurd h hlt⟩
  | succ n ih =>
      intro s added r hcount hle hrun
      rw [addBdAux] at hrun
      by_cases hlt : added < target
      · rw [if_pos hlt] at hrun
        simp only [] at hrun
        have hz : daysFromCivil x + dir * (s : Int) + dir =
            daysFromCivil x + dir * ((s + 1 : Nat) : Int) := by push_cast; ring
        rw [hz] at hrun
        have hsucc := specBusinessDaysOnPath_succ x dir hol wk s
        have hcast : ((s + 1 : Nat) : Int) = (s : Int) + 1 := by push_cast; ring
        by_cases hb : isBusinessDayCore hol wk
            (civilFromDays (daysFromCivil x + dir * ((s : Int) + 1))) = true
        · rw [if_pos (by rwa [hcast])] at hrun
          have hcount' : added + 1 = specBusinessDaysOnPath x dir hol wk (s + 1) := by
            rw [hsucc, if_pos hb, ← hcount]
          obtain ⟨k, hk1, hk2, hk3, hk4, hk5⟩ :=
            ih (s + 1) (added + 1) r hcount' (by omega) hrun
          refine ⟨k, by omega, hk2, hk3, fun h => absurd hlt h, fun _ => ?_⟩
          by_cases hfin : added + 1 < target
          · obtain ⟨h5a, h5b⟩ := hk5 hfin
            exact ⟨by omega, h5b⟩
          · have hks : k = s + 1 := hk4 hfin
            refine ⟨by omega, ?_⟩
            rw [hks, hcast]
            exact hb
        · rw [if_neg (by rwa [hcast])] at hrun
          have hcount' : added = specBusinessDaysOnPath x dir hol wk (s + 1) := by
            rw [hsucc, if_neg hb, ← hcount]
            omega
          obtain ⟨k, hk1, hk2, hk3, hk4, hk5⟩ :=
            ih (s + 1) added r hcount' hle hrun
          obtain ⟨h5a, h5b⟩ := hk5 hlt
          exact ⟨k, by omega, hk2, hk3, fun h => absurd hlt h, fun _ => ⟨by omega, h5b⟩⟩
      · rw [if_neg hlt] at hrun
        refine ⟨s, le_rfl, (Except.ok.injEq _ _).mp hrun |>.symm, by omega,
          fun _ => rfl, fun h => absurd h hlt⟩

/-- C6: `advance` with a Days period delegates to `addBusinessDays` and
returns its result directly, independently of the convention (no
re-adjustment); and a successful result is reached by stepping whole
calendar days in the sign's direction, counts exactly `|value|` business
days among those steps, and itself satisfies the business-day predicate. -/
theorem c6_days_advance (x : Ymd) (v : Int) (conv : BusinessDayConvention)
    (hol : Ymd → Bool) (wk : List Int) (hok : x.Ok) (hv : v ≠ 0) :
    advance x ⟨v, .days⟩ conv hol wk = addBusinessDays x v hol wk ∧
    ∀ r : Ymd, addBusinessDays x v hol wk = .ok r →
      isBusinessDayCore hol wk r = true ∧
      ∃ k : Nat, 1 ≤ k ∧
        r = civilFromDays (daysFromCivil x + (if 0 < v then 1 else -1) * (k : Int)) ∧
        specBusinessDaysOnPath x (if 0 < v then 1 else -1) hol wk k = v.natAbs := by
  constructor
  · rw [advance, if_neg (not_not_intro hok)]
  · intro r hr
    rw [addBusinessDays, if_neg (by simpa using hv)] at hr
    have h0 : daysFromCivil x =
        daysFromCivil x + (if 0 < v then 1 else -1) * ((0 : Nat) : Int) := by
      simp
    rw [h0] at hr
    obtain ⟨k, hk1, hk2, hk3, hk4, hk5⟩ :=
      addBdAux_ok_spec hol wk (if 0 < v then 1 else -1) v.natAbs x 366 0 0 r
        (specBusinessDaysOnPath_zero x _ hol wk).symm (by omega) hr
    have htarget : 0 < v.natAbs := Int.natAbs_pos.mpr hv
    obtain ⟨hk6, hb⟩ := hk5 htarget
    refine ⟨by rw [hk2]; exact hb, k, by omega, hk2, hk3⟩

/-- C6 witness: the theorem applied to advancing Tuesday 2024-01-02 by 5
business days with the empty calendar and default weekend. -/
theorem c6_witness :
    advance ⟨2024, 1, 2⟩ ⟨5, .days⟩ .following (fun _ => false) [6, 0] =
      addBusinessDays ⟨2024, 1, 2⟩ 5 (fun _ => false) [6, 0] ∧
    ∀ r : Ymd, addBusinessDays ⟨2024, 1, 2⟩ 5 (fun _ => false) [6, 0] = .ok r →
      isBusinessDayCore (fun _ => false) [6, 0] r = true ∧
      ∃ k : Nat, 1 ≤ k ∧
        r = civilFromDays (daysFromCivil ⟨2024, 1, 2⟩ +
          (if 0 < (5 : Int) then 1 else -1) * (k : Int)) ∧
        specBusinessDaysOnPath ⟨2024, 1, 2⟩ (if 0 < (5 : Int) then 1 else -1)
          (fun _ => false) [6, 0] k = (5 : Int).natAbs :=
  c6_days_advance ⟨2024, 1, 2⟩ 5 .following (fun _ => false) [6, 0]
    (by decide) (by decide)

theorem monthsDown_spec (tm yo : Int) :
    (monthsDown tm yo).1 + 12 * (monthsDown tm yo).2 = tm + 12 * yo ∧
    (monthsDown tm yo).1 ≤ 12 := by
  induction tm, yo using monthsDown.induct with
  | case1 tm yo hlt ih =>
      rw [monthsDown, if_pos hlt]
      omega
  | case2 tm yo hlt =>
      rw [monthsDown, if_neg hlt]
      show tm + 12 * yo = tm + 12 * yo ∧ tm ≤ 12
      omega

theorem monthsUp_spec (tm yo : Int) :
    (monthsUp tm yo).1 + 12 * (monthsUp tm yo).2 = tm + 12 * yo ∧
    1 ≤ (monthsUp tm yo).1 ∧
    (tm ≤ 12 → (monthsUp tm yo).1 ≤ 12) := by
  induction tm, yo using monthsUp.induct with
  | case1 tm yo hlt ih =>
      rw [monthsUp, if_pos hlt]
      refine ⟨by omega, ih.2.1, fun _ => ih.2.2 (by omega)⟩
  | case2 tm yo hlt =>
      rw [monthsUp, if_neg hlt]
      show tm + 12 * yo = tm + 12 * yo ∧ 1 ≤ tm ∧ (tm ≤ 12 → tm ≤ 12)
      omega

/-- The Months-advancement target in the spec's words: the month number
shifted by the period value with carry/borrow into the year — equivalent to
floor division of `month + value - 1` by 12 (`%` and `/` here are the
Euclidean operations, which agree with floor division since 12 > 0) — with
the original day of month kept and clamped to the last valid day of the
target month when it does not exist there. -/
def monthsAdvanceTarget (x : Ymd) (v : Int) : Ymd :=
  let total := x.m + v
  let newMonth := (total - 1) % 12 + 1
  let newYear := x.y + (total - 1) / 12
  let newDay :=
    if x.d ≤ daysInMonth newYear newMonth then x.d
    else daysInMonth newYear newMonth
  ⟨newYear, newMonth, newDay⟩

/-- C7: `advance` with a Months period takes the carry/borrow-normalized
month (floor-division semantics), keeps the original day of month, clamps
to the last day of the target month when needed, and then applies `adjust`
with the given convention. -/
theorem c7_months_advance (x : Ymd) (v : Int) (conv : BusinessDayConvention)
    (hol : Ymd → Bool) (wk : List Int) (hok : x.Ok) :
    advance x ⟨v, .months⟩ conv hol wk =
      adjust (monthsAdvanceTarget x v) conv hol wk := by
  obtain ⟨hm1, hm2, hd1, _hd2⟩ := hok
  rw [advance, if_neg (not_not_intro ⟨hm1, hm2, hd1, _hd2⟩)]
  show adjust _ conv hol wk = _
  have hdown := monthsDown_spec (x.m + v) 0
  have hup := monthsUp_spec (monthsDown (x.m + v) 0).1 (monthsDown (x.m + v) 0).2
  set p := monthsUp (monthsDown (x.m + v) 0).1 (monthsDown (x.m + v) 0).2 with hp
  have hsum : p.1 + 12 * p.2 = x.m + v := by omega
  have hrange : 1 ≤ p.1 ∧ p.1 ≤ 12 := ⟨hup.2.1, hup.2.2 hdown.2⟩
  have hmonth : p.1 = (x.m + v - 1) % 12 + 1 := by omega
  have hyear : p.2 = (x.m + v - 1) / 12 := by omega
  congr 1
  unfold monthsAdvanceTarget
  simp only []
  have hOkIff : (Ymd.mk (x.y + p.2) p.1 x.d).Ok ↔
      x.d ≤ daysInMonth (x.y + p.2) p.1 := by
    constructor
    · intro h
      exact h.2.2.2
    · intro h
      exact ⟨hrange.1, hrange.2, hd1, h⟩
  by_cases hclamp : x.d ≤ daysInMonth (x.y + p.2) p.1
  · rw [if_pos (hOkIff.mpr hclamp)]
    rw [hmonth, hyear] at hclamp ⊢
    rw [if_pos hclamp]
  · rw [if_neg (fun h => hclamp (hOkIff.mp h))]
    rw [hmonth, hyear] at hclamp ⊢
    rw [if_neg hclamp]

/-- C7 witness: 2024-01-31 advanced by 1 month is clamped to 2024-02-29 and
then adjusted (here with Unadjusted and an empty calendar). -/
theorem c7_witness :
    advance ⟨2024, 1, 31⟩ ⟨1, .months⟩ .unadjusted (fun _ => false) [] =
      adjust (monthsAdvanceTarget ⟨2024, 1, 31⟩ 1) .unadjusted (fun _ => false) [] :=
  c7_months_advance ⟨2024, 1, 31⟩ 1 .unadjusted (fun _ => false) [] (by decide)

theorem zeller_remap_range (t : Int) :
    0 ≤ (t.tmod 7 + 6).tmod 7 ∧ (t.tmod 7 + 6).tmod 7 < 7 :=
  ⟨Int.tmod_nonneg 7 (by have := tmod_seven_lower t; omega), tmod_seven_upper _⟩

/-- The Zeller result is always one of 0..6. -/
theorem dayOfWeek_range (x : Ymd) : 0 ≤ dayOfWeek x ∧ dayOfWeek x < 7 := by
  simp only [dayOfWeek]
  exact zeller_remap_range _

/-- The truncated-remainder leap test in Euclidean form. -/
theorem isLeapYear_iff (y : Int) :
    isLeapYear y = true ↔ (y % 4 = 0 ∧ (y % 100 ≠ 0 ∨ y % 400 = 0)) := by
  simp [isLeapYear]

/-- On a nonnegative (shifted) year, the truncated-division Zeller
computation agrees with the all-Euclidean form. -/
theorem dayOfWeek_emod (yv mv dv : Int)
    (hy : 0 ≤ (if mv < 3 then yv - 1 else yv)) (hm : 1 ≤ mv) :
    dayOfWeek ⟨yv, mv, dv⟩ =
      (dv + 13 * ((if mv < 3 then mv + 12 else mv) + 1) / 5
        + (if mv < 3 then yv - 1 else yv) % 100
        + (if mv < 3 then yv - 1 else yv) % 100 / 4
        + (if mv < 3 then yv - 1 else yv) / 100 / 4
        - 2 * ((if mv < 3 then yv - 1 else yv) / 100) + 6) % 7 := by
  simp only [dayOfWeek]
  set y0 := if mv < 3 then yv - 1 else yv with hy0
  set m0 := if mv < 3 then mv + 12 else mv with hm0
  have hm0pos : 1 ≤ m0 := by rw [hm0]; split <;> omega
  have e1 : (13 * (m0 + 1)).tdiv 5 = 13 * (m0 + 1) / 5 :=
    Int.tdiv_eq_ediv (by omega) (by omega)
  have e2 : y0.tmod 100 = y0 % 100 := Int.tmod_eq_emod hy (by omega)
  have e3 : y0.tdiv 100 = y0 / 100 := Int.tdiv_eq_ediv hy (by omega)
  rw [e1, e2, e3]
  have e4 : (y0 % 100).tdiv 4 = y0 % 100 / 4 :=
    Int.tdiv_eq_ediv (Int.emod_nonneg y0 (by omega)) (by omega)
  have e5 : (y0 / 100).tdiv 4 = y0 / 100 / 4 :=
    Int.tdiv_eq_ediv (Int.ediv_nonneg hy (by omega)) (by omega)
  rw [e4, e5]
  exact tmod_seven_shift _

/-- `dayOfWeek_emod` with the January/February branch resolved. -/
theorem dayOfWeek_emod_early (yv mv dv : Int) (h3 : mv < 3) (hy1 : 0 ≤ yv - 1)
    (hm : 1 ≤ mv) :
    dayOfWeek ⟨yv, mv, dv⟩ =
      (dv + 13 * (mv + 12 + 1) / 5 + (yv - 1) % 100 + (yv - 1) % 100 / 4
        + (yv - 1) / 100 / 4 - 2 * ((yv - 1) / 100) + 6) % 7 := by
  rw [dayOfWeek_emod yv mv dv (by rw [if_pos h3]; exact hy1) hm]
  simp only [if_pos h3]

/-- `dayOfWeek_emod` with the March-to-December branch resolved. -/
theorem dayOfWeek_emod_late (yv mv dv : Int) (h3 : ¬ mv < 3) (hy1 : 0 ≤ yv) :
    dayOfWeek ⟨yv, mv, dv⟩ =
      (dv + 13 * (mv + 1) / 5 + yv % 100 + yv % 100 / 4
        + yv / 100 / 4 - 2 * (yv / 100) + 6) % 7 := by
  rw [dayOfWeek_emod yv mv dv (by rw [if_neg h3]; exact hy1) (by omega)]
  simp only [if_neg h3]

/-- For a valid date with year at least 1, one calendar day forward moves
the Zeller weekday forward by exactly one, modulo 7. -/
theorem dayOfWeek_step (x : Ymd) (hok : x.Ok) (hy : 1 ≤ x.y) :
    dayOfWeek (nextDate x) = (dayOfWeek x + 1) % 7 := by
  obtain ⟨yv, mv, dv⟩ := x
  obtain ⟨hm1, hm2, hd1, hd2⟩ := hok
  simp only at hm1 hm2 hd1 hd2 hy
  by_cases hlt : dv < daysInMonth yv mv
  · rw [show nextDate ⟨yv, mv, dv⟩ = ⟨yv, mv, dv + 1⟩ by
      simp only [nextDate]; rw [if_pos hlt]]
    by_cases h3 : mv < 3
    · rw [dayOfWeek_emod_early yv mv (dv + 1) h3 (by omega) hm1,
        dayOfWeek_emod_early yv mv dv h3 (by omega) hm1]
      omega
    · rw [dayOfWeek_emod_late yv mv (dv + 1) h3 (by omega),
        dayOfWeek_emod_late yv mv dv h3 (by omega)]
      omega
  · have hdm : dv = daysInMonth yv mv := by omega
    by_cases hm12 : mv < 12
    · rw [show nextDate ⟨yv, mv, dv⟩ = ⟨yv, mv + 1, 1⟩ by
        simp only [nextDate]; rw [if_neg hlt, if_pos hm12]]
      interval_cases mv
      · -- January → February: both sides use the previous year
        rw [show (⟨yv, 1 + 1, 1⟩ : Ymd) = ⟨yv, 2, 1⟩ by norm_num]
        rw [dayOfWeek_emod_early yv 2 1 (by norm_num) (by omega) (by norm_num),
          dayOfWeek_emod_early yv 1 dv (by norm_num) (by omega) (by norm_num)]
        norm_num [daysInMonth] at hdm
        omega
      · -- February → March: the shifted year changes from yv - 1 to yv
        rw [show (⟨yv, 2 + 1, 1⟩ : Ymd) = ⟨yv, 3, 1⟩ by norm_num]
        rw [dayOfWeek_emod_late yv 3 1 (by norm_num) (by omega),
          dayOfWeek_emod_early yv 2 dv (by norm_num) (by omega) (by norm_num)]
        norm_num [daysInMonth] at hdm
        by_cases hl : isLeapYear yv = true
        · rw [if_pos hl] at hdm
          rw [isLeapYear_iff] at hl
          rcases hl with ⟨h4, h100 | h400⟩
          · have ha : (yv - 1) % 100 = yv % 100 - 1 := by omega
            have hb : (yv - 1) / 100 = yv / 100 := by omega
            rw [hdm, ha, hb]
            have hc : (yv % 100 - 1) / 4 = yv % 100 / 4 - 1 := by omega
            rw [hc]
            omega
          · have ha : yv % 100 = 0 := by omega
            have hb : (yv - 1) % 100 = 99 := by omega
            have hc : (yv - 1) / 100 = yv / 100 - 1 := by omega
            rw [hdm, hb, hc]
            have hd : (yv / 100 - 1) / 4 = yv / 100 / 4 - 1 := by omega
            rw [hd]
            omega
        · rw [if_neg hl] at hdm
          rw [isLeapYear_iff] at hl
          push_neg at hl
          by_cases h4 : yv % 4 = 0
          · obtain ⟨h100, h400⟩ := hl h4
            have hb : (yv - 1) % 100 = 99 := by omega
            have hc : (yv - 1) / 100 = yv / 100 - 1 := by omega
            rw [hdm, hb, hc]
            have hd : (yv / 100 - 1) / 4 = yv / 100 / 4 := by omega
            rw [hd]
            omega
          · have ha : (yv - 1) % 100 = yv % 100 - 1 := by omega
            have hb : (yv - 1) / 100 = yv / 100 := by omega
            rw [hdm, ha, hb]
            have hc : (yv % 100 - 1) / 4 = yv % 100 / 4 := by omega
            rw [hc]
            omega
      · rw [show (⟨yv, 3 + 1, 1⟩ : Ymd) = ⟨yv, 4, 1⟩ by norm_num]
        rw [dayOfWeek_emod_late yv 4 1 (by norm_num) (by omega),
          dayOfWeek_emod_late yv 3 dv (by norm_num) (by omega)]
        norm_num [daysInMonth] at hdm
        omega
      · rw [show (⟨yv, 4 + 1, 1⟩ : Ymd) = ⟨yv, 5, 1⟩ by norm_num]
        rw [dayOfWeek_emod_late yv 5 1 (by norm_num) (by omega),
          dayOfWeek_emod_late yv 4 dv (by norm_num) (by omega)]
        norm_num [daysInMonth] at hdm
        omega
      · rw [show (⟨yv, 5 + 1, 1⟩ : Ymd) = ⟨yv, 6, 1⟩ by norm_num]
        rw [dayOfWeek_emod_late yv 6 1 (by norm_num) (by omega),
          dayOfWeek_emod_late yv 5 dv (by norm_num) (by omega)]
        norm_num [daysInMonth] at hdm
        omega
      · rw [show (⟨yv, 6 + 1, 1⟩ : Ymd) = ⟨yv, 7, 1⟩ by norm_num]
        rw [dayOfWeek_emod_late yv 7 1 (by norm_num) (by omega),
          dayOfWeek_emod_late yv 6 dv (by norm_num) (by omega)]
        norm_num [daysInMonth] at hdm
        omega
      · rw [show (⟨yv, 7 + 1, 1⟩ : Ymd) = ⟨yv, 8, 1⟩ by norm_num]
        rw [dayOfWeek_emod_late yv 8 1 (by norm_num) (by omega),
          dayOfWeek_emod_late yv 7 dv (by norm_num) (by omega)]
        norm_num [daysInMonth] at hdm
        omega
      · rw [show (⟨yv, 8 + 1, 1⟩ : Ymd) = ⟨yv, 9, 1⟩ by norm_num]
        rw [dayOfWeek_emod_late yv 9 1 (by norm_num) (by omega),
          dayOfWeek_emod_late yv 8 dv (by norm_num) (by omega)]
        norm_num [daysInMonth] at hdm
        omega
      · rw [show (⟨yv, 9 + 1, 1⟩ : Ymd) = ⟨yv, 10, 1⟩ by norm_num]
        rw [dayOfWeek_emod_late yv 10 1 (by norm_num) (by omega),
          dayOfWeek_emod_late yv 9 dv (by norm_num) (by omega)]
        norm_num [daysInMonth] at hdm
        omega
      · rw [show (⟨yv, 10 + 1, 1⟩ : Ymd) = ⟨yv, 11, 1⟩ by norm_num]
        rw [dayOfWeek_emod_late yv 11 1 (by norm_num) (by omega),
          dayOfWeek_emod_late yv 10 dv (by norm_num) (by omega)]
        norm_num [daysInMonth] at hdm
        omega
      · rw [show (⟨yv, 11 + 1, 1⟩ : Ymd) = ⟨yv, 12, 1⟩ by norm_num]
        rw [dayOfWeek_emod_late yv 12 1 (by norm_num) (by omega),
          dayOfWeek_emod_late yv 11 dv (by norm_num) (by omega)]
        norm_num [daysInMonth] at hdm
        omega
    · -- December 31 → January 1 of the next year (same shifted year)
      have hmv : mv = 12 := by omega
      subst hmv
      rw [show nextDate ⟨yv, 12, dv⟩ = ⟨yv + 1, 1, 1⟩ by
        simp only [nextDate]; rw [if_neg hlt, if_neg hm12]]
      rw [dayOfWeek_emod_early (yv + 1) 1 1 (by norm_num) (by omega) (by norm_num),
        dayOfWeek_emod_late yv 12 dv (by norm_num) (by omega)]
      rw [show yv + 1 - 1 = yv by ring]
      norm_num [daysInMonth] at hdm
      omega

/-- C4 counterexample: the claim's "+1 day advances the result by exactly
one (mod 7)" fails at the valid date 0000-02-29 (the truncated C++ division
in Zeller's shift makes year 0's February inconsistent with its March):
both 0000-02-29 and its successor 0000-03-01 map to 3. -/
theorem c4_counterexample :
    (Ymd.mk 0 2 29).Ok ∧
    nextDate ⟨0, 2, 29⟩ = ⟨0, 3, 1⟩ ∧
    dayOfWeek ⟨0, 2, 29⟩ = 3 ∧
    dayOfWeek ⟨0, 3, 1⟩ = 3 ∧
    ¬ dayOfWeek (nextDate ⟨0, 2, 29⟩) = (dayOfWeek ⟨0, 2, 29⟩ + 1) % 7 := by
  decide

/-- C4 (amended): for every valid date, `dayOfWeek` returns a value in
0..6 computed by the code's Zeller congruence; for every valid date with
year at least 1 the result advances by exactly one (mod 7) under +1 day
(for earlier years the truncated division deviates); and the known fixed
points hold: 2024-01-01 ↦ 1, 2024-01-07 ↦ 0, 2024-11-28 ↦ 4. -/
theorem c4_zeller_weekday (x : Ymd) (hok : x.Ok) :
    (0 ≤ dayOfWeek x ∧ dayOfWeek x < 7) ∧
    (1 ≤ x.y → dayOfWeek (nextDate x) = (dayOfWeek x + 1) % 7) ∧
    dayOfWeek ⟨2024, 1, 1⟩ = 1 ∧
    dayOfWeek ⟨2024, 1, 7⟩ = 0 ∧
    dayOfWeek ⟨2024, 11, 28⟩ = 4 :=
  ⟨dayOfWeek_range x, fun hy => dayOfWeek_step x hok hy,
    by decide, by decide, by decide⟩

/-- C4 witness: the amended theorem applied at 2024-11-27, whose successor
2024-11-28 is one weekday later. -/
theorem c4_witness :
    dayOfWeek (nextDate ⟨2024, 11, 27⟩) = (dayOfWeek ⟨2024, 11, 27⟩ + 1) % 7 :=
  (c4_zeller_weekday ⟨2024, 11, 27⟩ (by decide)).2.1 (by decide)

end Datelib
